import Mathlib

/-!
Verification development for the Resume Job Fit Analyzer.

The repository ships the Next.js frontend (src/frontend, src/unnamed/part_002
... part_005), the README (src/unnamed/part_001) and a Dockerfile
(src/unnamed/part_000).  The Python backend (the FastAPI matching engine under
app/) is not part of the source tree, so the scoring engine, normalizer,
extractor, aggregator and explainer are modelled from the specification, as
marked on each definition.  Frontend code (score colours, fit-label rendering,
file upload validation, result schema) is embedded directly from the
TypeScript source.

Scores and weights are modelled as rationals; the experience logistic curve,
which is genuinely real-valued, is modelled over the reals.  JavaScript
strings handled by the upload component are modelled as lists of character
codes.
-/

/-- Clamp a rational to the unit interval.  The spec (section 3, invariants)
requires all similarity and score values to be clamped to the interval
from 0 to 1. -/
def clamp01 (x : ℚ) : ℚ := max 0 (min 1 x)

/-- Modelled from the spec: the fixed, documented neutral score constant used
by the graph and semantic scorers when the job skill set is empty
(sections 4.4 and 4.5; the scoring engine itself is not in the source
tree).  The spec leaves the value to the implementer; one half is the
documented choice here. -/
def neutralScore : ℚ := 1/2

/-! ## Frontend score colour functions

Embedded from src/frontend/src/components/analyzer/score-circle.tsx
(getColor, getStrokeColor) and src/unnamed/part_004 (getBarColor).  The
TypeScript compares with 0.75, 0.5 and 0.25 from the top down. -/

/-- Embeds getColor from score-circle.tsx lines 36-41. -/
def getColor (s : ℚ) : String :=
  if 3/4 ≤ s then "text-emerald-500"
  else if 1/2 ≤ s then "text-amber-500"
  else if 1/4 ≤ s then "text-orange-500"
  else "text-red-500"

/-- Embeds getStrokeColor from score-circle.tsx lines 43-48. -/
def getStrokeColor (s : ℚ) : String :=
  if 3/4 ≤ s then "#10b981"
  else if 1/2 ≤ s then "#f59e0b"
  else if 1/4 ≤ s then "#f97316"
  else "#ef4444"

/-- Embeds getBarColor from the score bar component, src/unnamed/part_004
lines 24-29. -/
def getBarColor (s : ℚ) : String :=
  if 3/4 ≤ s then "bg-emerald-500"
  else if 1/2 ≤ s then "bg-amber-500"
  else if 1/4 ≤ s then "bg-orange-500"
  else "bg-red-500"

/-- Modelled from the spec: the ScoreAggregator fit-label thresholds
(section 4.7; the aggregator itself is not in the source tree).  Four
ordered bands checked high to low, inclusive at each lower bound, with
the default thresholds 0.75, 0.50 and 0.25. -/
def fitLabel (s : ℚ) : String :=
  if 3/4 ≤ s then "Strong Fit"
  else if 1/2 ≤ s then "Moderate Fit"
  else if 1/4 ≤ s then "Potential Fit"
  else "Weak Fit"

/-! ## File upload validation

Embedded from the FileUpload component, src/unnamed/part_003.  JavaScript
strings are modelled as lists of UTF-16 code units (naturals); 46 is the
dot, 65-90 the uppercase ASCII letters. -/

/-- ASCII lowercasing of one code unit, as String.prototype.toLowerCase acts
on ASCII. -/
def lowerCode (n : ℕ) : ℕ := if 65 ≤ n ∧ n ≤ 90 then n + 32 else n

/-- Lowercase a whole code-unit string. -/
def lowerCodes (l : List ℕ) : List ℕ := l.map lowerCode

/-- The code units of ".pdf". -/
def pdfExtension : List ℕ := [46, 112, 100, 102]

/-- The code units of ".docx". -/
def docxExtension : List ℕ := [46, 100, 111, 99, 120]

/-- The suffix of the string that starts at the LAST dot, or none when the
string has no dot.  Mirrors name.lastIndexOf applied at line 35 of
src/unnamed/part_003. -/
def lastDotSuffix : List ℕ → Option (List ℕ)
  | [] => none
  | c :: rest =>
    match lastDotSuffix rest with
    | some s => some s
    | none => if c = 46 then some (c :: rest) else none

/-- Embeds name.substring(name.lastIndexOf ".") from line 35 of
src/unnamed/part_003: when lastIndexOf returns -1, substring(-1) clamps to 0
and yields the whole name. -/
def jsExtension (name : List ℕ) : List ℕ := (lastDotSuffix name).getD name

/-- The 10 MB upload limit from line 41 of src/unnamed/part_003. -/
def maxUploadBytes : ℕ := 10 * 1024 * 1024

/-- Embeds validateFile from src/unnamed/part_003 lines 32-47: returns
whether the file passes and the error message the component sets when it
does not.  The extension test runs first, then the size test. -/
def validateFile (name : List ℕ) (size : ℕ) : Bool × Option String :=
  if lowerCodes (jsExtension name) = pdfExtension ∨
      lowerCodes (jsExtension name) = docxExtension then
    if maxUploadBytes < size then
      (false, some "File size must be under 10MB.")
    else
      (true, none)
  else
    (false, some "Only PDF and DOCX files are supported.")

/-- Embeds handleFile from src/unnamed/part_003 lines 49-57: the file is
handed to onFileSelect exactly when validateFile passes.  The returned
option is the argument of the single onFileSelect call, none when the
callback is not invoked. -/
def handleFile (name : List ℕ) (size : ℕ) : Option (List ℕ × ℕ) :=
  if (validateFile name size).1 then some (name, size) else none

/-- Written from the words of claim C10: e is the final extension of the file
name when it is a suffix of the name that starts with a dot and has no
further dot after it. -/
def IsFinalExtension (name e : List ℕ) : Prop :=
  (∃ pre, name = pre ++ e) ∧ e.head? = some 46 ∧ 46 ∉ e.tail

/-! ## Skill ontology and normalization

Modelled from the spec (sections 3, 4.2 and 4.3); the backend ontology,
FAISS index and normalizer (app/services/skill_normalizer.py,
app/vectorstore/faiss_store.py per the README architecture) are not in the
source tree. -/

/-- ASCII lowercasing of one character, as Python str.lower acts on ASCII. -/
def lowerChar (c : Char) : Char :=
  if 65 ≤ c.toNat ∧ c.toNat ≤ 90 then Char.ofNat (c.toNat + 32) else c

/-- ASCII lowercasing of a string. -/
def lowerStr (s : String) : String := String.mk (s.data.map lowerChar)

/-- Modelled from the spec: an ontology node (section 3, Skill): stable id,
canonical name, single category and alias strings.  The embedding vector is
abstracted into the similarity oracle of the engine state. -/
structure Skill where
  id : String
  name : String
  category : String
  aliases : List String
deriving DecidableEq

/-- Modelled from the spec: the outcome of normalizing one mention
(section 3, CanonicalSkill): either a canonical skill id with its resolution
similarity, or the literal mention text kept unresolved. -/
inductive Normalized where
  | resolved (id : String) (similarity : ℚ)
  | unresolved (text : String)
deriving DecidableEq

/-- Case-insensitive test of a mention against the canonical name or any
alias of one skill (section 4.3, alias short-circuit). -/
def aliasMatches (m : String) (sk : Skill) : Bool :=
  decide (lowerStr sk.name = lowerStr m) ||
    sk.aliases.any (fun a => decide (lowerStr a = lowerStr m))

/-- Modelled from the spec: SkillNormalizer (section 4.3).  An exact
case-insensitive match against a canonical name or alias resolves with
similarity 1 without consulting the index; otherwise the nearest-neighbour
index answer is accepted when its similarity reaches the threshold, and the
mention stays unresolved when it does not or when the index returns
nothing.  The index is abstracted as a function from the mention text to
the top hit (id and cosine similarity). -/
def normalizeMention (index : String → Option (String × ℚ)) (threshold : ℚ)
    (ontology : List Skill) (m : String) : Normalized :=
  match ontology.find? (fun sk => aliasMatches m sk) with
  | some sk => .resolved sk.id 1
  | none =>
    match index m with
    | some (id, simVal) =>
      if threshold ≤ simVal then .resolved id simVal else .unresolved m
    | none => .unresolved m

/-- A well-formed ontology for normalization: whenever the canonical name of
one skill matches the name or aliases of a (possibly different) skill of
the ontology, both carry the same id.  Distinct canonical names together
with alias lists that avoid other canonical names give this. -/
def NamesResolveUniquely (ontology : List Skill) : Prop :=
  ∀ a ∈ ontology, ∀ b ∈ ontology, aliasMatches a.name b = true → b.id = a.id

/-! ## Skill extraction

Modelled from the spec (section 4.1); the backend extractor
(app/ml/ner/skill_extractor.py per the README) is not in the source tree. -/

/-- Modelled from the spec: the origin of an extracted mention (section 3,
ExtractedMention). -/
inductive MentionSource where
  | model
  | rule
deriving DecidableEq

/-- Modelled from the spec: one extracted skill mention (section 3). -/
structure Mention where
  text : String
  source : MentionSource
  confidence : ℚ
deriving DecidableEq

/-- Modelled from the spec: the fixed confidence given to surviving lexicon
hits, lower than any model hit (section 4.1). -/
def ruleConfidence : ℚ := 1/2

/-- Whether the first code sequence occurs inside the second. -/
def seqContains (pat hay : List Char) : Bool :=
  hay.tails.any (fun t => pat.isPrefixOf t)

/-- Case-insensitive containment of one string in another, used both for the
lexicon scan and for the overlap test of the merge policy. -/
def textContains (hay pat : String) : Bool :=
  seqContains (lowerStr pat).data (lowerStr hay).data

/-- Overlap of two mention texts: case-insensitive exact match or substring
containment either way (section 4.1, merge policy). -/
def mentionOverlap (a b : String) : Bool :=
  decide (lowerStr a = lowerStr b) || textContains b a || textContains a b

/-- Modelled from the spec: the rule-based lexicon pass (section 4.1): every
lexicon term found case-insensitively in the text becomes a rule mention
with the fixed rule confidence. -/
def lexiconScan (lexicon : List String) (text : String) : List Mention :=
  (lexicon.filter (fun t => textContains text t)).map
    (fun t => { text := t, source := .rule, confidence := ruleConfidence })

/-- Modelled from the spec: hybrid extraction with the degraded-mode flag
(section 4.1).  With the model available its output is authoritative:
lexicon hits overlapping a model hit are dropped and the survivors added;
without the model the lexicon pass alone is returned together with the
degraded flag set. -/
def extractSkills (nerModel : Option (String → List Mention))
    (lexicon : List String) (text : String) : List Mention × Bool :=
  match nerModel with
  | none => (lexiconScan lexicon text, true)
  | some f =>
    let modelHits := f text
    let survivors := (lexiconScan lexicon text).filter
      (fun l => ! modelHits.any (fun m => mentionOverlap l.text m.text))
    (modelHits ++ survivors, false)

/-! ## Scoring

Modelled from the spec (sections 4.4 to 4.7); the backend scoring engine
(app/ml/matching/scoring_engine.py per the README) is not in the source
tree.  The README (src/unnamed/part_001, Multi-Stage Scoring) documents the
same three dimensions with default weights 50/30/20. -/

/-- Modelled from the spec: Jaccard similarity of two skill-id sets
(section 4.4).  Lists stand for their underlying sets. -/
def jaccardSim (a b : List String) : ℚ :=
  let inter := a.dedup.filter (fun x => b.contains x)
  let uni := (a ++ b).dedup
  if uni.isEmpty then 0 else (inter.length : ℚ) / (uni.length : ℚ)

/-- Modelled from the spec: the fraction of job skill categories also present
among the resume skill categories (section 4.4). -/
def categoryOverlap (jobCats resumeCats : List String) : ℚ :=
  let jc := jobCats.dedup
  if jc.isEmpty then 0
  else ((jc.filter (fun c => resumeCats.contains c)).length : ℚ) / (jc.length : ℚ)

/-- Modelled from the spec: the startup configuration surface (section 6):
the three aggregation weights, the graph sub-weights and the normalization
similarity threshold. -/
structure MatchConfig where
  semantic_weight : ℚ
  graph_weight : ℚ
  experience_weight : ℚ
  jaccard_weight : ℚ
  category_weight : ℚ
  sim_threshold : ℚ
deriving DecidableEq

/-- Modelled from the spec: configuration validation at startup (sections 4.7
and 6): the aggregation weights must sum to exactly 1, the graph
sub-weights to 1, and the weights are fractions of the whole score so each
must be non-negative (the frontend renders each as a percentage).  A
configuration failing validation is rejected, so no request is ever scored
under it. -/
def loadConfig (c : MatchConfig) : Option MatchConfig :=
  if c.semantic_weight + c.graph_weight + c.experience_weight = 1 ∧
      0 ≤ c.semantic_weight ∧ 0 ≤ c.graph_weight ∧ 0 ≤ c.experience_weight ∧
      c.jaccard_weight + c.category_weight = 1 ∧
      0 ≤ c.jaccard_weight ∧ 0 ≤ c.category_weight then
    some c
  else none

/-- Modelled from the spec: KnowledgeGraphScorer (section 4.4): neutral when
the job skill set is empty, otherwise the configured combination of Jaccard
similarity and category overlap, clamped to the unit interval. -/
def graphScore (cfg : MatchConfig) (resumeIds jobIds resumeCats jobCats : List String) : ℚ :=
  if jobIds.isEmpty then neutralScore
  else clamp01 (cfg.jaccard_weight * jaccardSim resumeIds jobIds +
    cfg.category_weight * categoryOverlap jobCats resumeCats)

/-- Modelled from the spec: the best cosine similarity of one job skill
against any resume skill (section 4.5), through the abstract similarity
oracle; 0 when the resume set is empty. -/
def bestMatchSim (sim : String → String → ℚ) (resumeNames : List String)
    (s : String) : ℚ :=
  resumeNames.foldr (fun r acc => max (sim s r) acc) 0

/-- Modelled from the spec: the query side of the asymmetric semantic scorer
(section 4.5): every required job skill with weight 1 followed by every
preferred job skill with weight one half. -/
def semanticEntries (req pref : List String) : List (String × ℚ) :=
  req.map (fun s => (s, (1 : ℚ))) ++ pref.map (fun s => (s, (1/2 : ℚ)))

/-- Modelled from the spec: SemanticScorer (section 4.5): asymmetric
best-match over the job skills, averaged by total weight; neutral when the
job lists are both empty.  Per-skill similarities and the final score are
clamped. -/
def semanticScore (sim : String → String → ℚ) (resumeNames req pref : List String) : ℚ :=
  if (semanticEntries req pref).isEmpty then neutralScore
  else clamp01
    (((semanticEntries req pref).map
        (fun e => e.2 * clamp01 (bestMatchSim sim resumeNames e.1))).sum /
      ((semanticEntries req pref).map (fun e => e.2)).sum)

/-- Modelled from the spec: the logistic experience fit curve (section 4.6)
with steepness k, over the reals. -/
noncomputable def logisticFit (k years minYears : ℝ) : ℝ :=
  1 / (1 + Real.exp (-(k * (years - minYears))))

/-- Modelled from the spec: ExperienceScorer (section 4.6): 1 when the job
sets no minimum, the configured conservative fallback when the candidate
years are unknown, and the logistic curve when both are present. -/
noncomputable def experienceScore (k fallback : ℝ)
    (years minYears : Option ℝ) : ℝ :=
  match minYears with
  | none => 1
  | some m =>
    match years with
    | none => fallback
    | some y => logisticFit k y m

/-! ## Result schema

Embedded from the frontend API contract types, src/unnamed/part_002, which
mirror the backend Pydantic schemas. -/

/-- Embeds JobDescription from src/unnamed/part_002 lines 10-16. -/
structure JobDescription where
  title : String
  description : String
  required_skills : List String
  preferred_skills : List String
  min_experience_years : Option ℚ
deriving DecidableEq

/-- Embeds SkillMatch from src/unnamed/part_002 lines 33-37. -/
structure SkillMatch where
  skill : String
  similarity_score : ℚ
  matched : Bool
deriving DecidableEq

/-- Embeds ScoreBreakdown from src/unnamed/part_002 lines 39-46. -/
structure ScoreBreakdown where
  semantic_score : ℚ
  graph_score : ℚ
  experience_score : ℚ
  semantic_weight : ℚ
  graph_weight : ℚ
  experience_weight : ℚ
deriving DecidableEq

/-- Embeds MatchResult from src/unnamed/part_002 lines 48-57. -/
structure MatchResult where
  resume_id : String
  job_title : String
  overall_score : ℚ
  fit_label : String
  score_breakdown : ScoreBreakdown
  matched_skills : List SkillMatch
  missing_skills : List String
  explanation : String
deriving DecidableEq

/-! ## Explainer

Modelled from the spec (section 4.8); the backend explainer
(app/ml/explainability/explainer.py per the README) is not in the source
tree. -/

/-- Render a unit-interval score as a whole percentage. -/
def pct (q : ℚ) : String := toString (Rat.floor (q * 100))

/-- Comma-separated rendering of a list of names. -/
def joinComma : List String → String
  | [] => ""
  | [s] => s
  | s :: rest => s ++ ", " ++ joinComma rest

/-- Modelled from the spec: deterministic template rendering of the result
(section 4.8): the overall score and label, each dimension with its weight,
the counts and names of matched and missing required skills, and one
preferred-skill gap when present. -/
def explainText (bd : ScoreBreakdown) (overall : ℚ) (label : String)
    (matched : List SkillMatch) (missing : List String)
    (prefGaps : List String) : String :=
  "Overall score: " ++ pct overall ++ "% - " ++ label ++ "\n" ++
  "Semantic similarity: " ++ pct bd.semantic_score ++
    "% (weight " ++ pct bd.semantic_weight ++ "%)\n" ++
  "Graph structure: " ++ pct bd.graph_score ++
    "% (weight " ++ pct bd.graph_weight ++ "%)\n" ++
  "Experience fit: " ++ pct bd.experience_score ++
    "% (weight " ++ pct bd.experience_weight ++ "%)\n" ++
  "Matched required skills (" ++ toString matched.length ++ "): " ++
    joinComma (matched.map (fun m => m.skill)) ++ "\n" ++
  "Missing required skills (" ++ toString missing.length ++ "): " ++
    joinComma missing ++
  (match prefGaps with
   | [] => ""
   | g :: _ => "\nPreferred skill gap: " ++ g)

/-! ## Matching pipeline

Modelled from the spec (sections 2 and 4; app/ml/matching/pipeline.py per
the README is not in the source tree): extraction, normalization, the three
scorers, aggregation, the fit label and the explanation, end to end for one
resume and job pair. -/

/-- Modelled from the spec: the read-only per-process engine state: the
ontology, the embedding similarity oracle, the nearest-neighbour index
(abstracted to its top answer per query), the optional NER model and the
experience curve component (its rational output feeds the aggregation; the
real-valued logistic itself is modelled separately). -/
structure EngineState where
  ontology : List Skill
  sim : String → String → ℚ
  index : String → Option (String × ℚ)
  nerModel : Option (String → List Mention)
  expCurve : Option ℚ → Option ℚ → ℚ

/-- Modelled from the spec: one well-formed request (section 6): the parsed
resume text, the optional pre-extracted experience years and the job
description, plus the resume id the result echoes. -/
structure MatchInput where
  resume_id : String
  resumeText : String
  experience_years : Option ℚ
  job : JobDescription

/-- The extraction lexicon: every canonical name and alias of the ontology
(section 4.1, lexicon scan). -/
def pipelineLexicon (st : EngineState) : List String :=
  st.ontology.map (fun sk => sk.name) ++ (st.ontology.map (fun sk => sk.aliases)).flatten

/-- The deduplicated mention list of one request (section 4.1). -/
def pipelineMentions (st : EngineState) (inp : MatchInput) : List Mention :=
  (extractSkills st.nerModel (pipelineLexicon st) inp.resumeText).1

/-- Every mention of the request, normalized (section 4.3). -/
def pipelineCanonical (cfg : MatchConfig) (st : EngineState) (inp : MatchInput) :
    List Normalized :=
  (pipelineMentions st inp).map
    (fun m => normalizeMention st.index cfg.sim_threshold st.ontology m.text)

/-- The resolved canonical skill ids of the resume, duplicates collapsed
(section 3, ResumeProfile). -/
def resumeIdsOf (cfg : MatchConfig) (st : EngineState) (inp : MatchInput) : List String :=
  ((pipelineCanonical cfg st inp).filterMap
    (fun n => match n with | .resolved id _ => some id | .unresolved _ => none)).dedup

/-- The names the semantic scorer sees for the resume: canonical ids for
resolved mentions, the literal text for unresolved ones (section 4.5). -/
def resumeNamesOf (cfg : MatchConfig) (st : EngineState) (inp : MatchInput) : List String :=
  ((pipelineCanonical cfg st inp).map
    (fun n => match n with | .resolved id _ => id | .unresolved t => t)).dedup

/-- Normalization of one job skill string to its canonical id, none when it
stays unresolved. -/
def jobSkillId (cfg : MatchConfig) (st : EngineState) (s : String) : Option String :=
  match normalizeMention st.index cfg.sim_threshold st.ontology s with
  | .resolved id _ => some id
  | .unresolved _ => none

/-- The canonical skill-id set of the job: required and preferred skills
together (section 4.4). -/
def jobIdsOf (cfg : MatchConfig) (st : EngineState) (inp : MatchInput) : List String :=
  ((inp.job.required_skills ++ inp.job.preferred_skills).filterMap
    (jobSkillId cfg st)).dedup

/-- The ontology category of a canonical skill id. -/
def categoryOf (st : EngineState) (id : String) : Option String :=
  (st.ontology.find? (fun sk => sk.id = id)).map (fun sk => sk.category)

/-- The categories present among the resume skills. -/
def resumeCatsOf (cfg : MatchConfig) (st : EngineState) (inp : MatchInput) : List String :=
  (resumeIdsOf cfg st inp).filterMap (categoryOf st)

/-- The categories present among the job skills. -/
def jobCatsOf (cfg : MatchConfig) (st : EngineState) (inp : MatchInput) : List String :=
  (jobIdsOf cfg st inp).filterMap (categoryOf st)

/-- The semantic score of one request (section 4.5). -/
def semanticOf (cfg : MatchConfig) (st : EngineState) (inp : MatchInput) : ℚ :=
  semanticScore st.sim (resumeNamesOf cfg st inp)
    inp.job.required_skills inp.job.preferred_skills

/-- The graph score of one request (section 4.4). -/
def graphOf (cfg : MatchConfig) (st : EngineState) (inp : MatchInput) : ℚ :=
  graphScore cfg (resumeIdsOf cfg st inp) (jobIdsOf cfg st inp)
    (resumeCatsOf cfg st inp) (jobCatsOf cfg st inp)

/-- The experience score of one request, clamped (sections 3 and 4.6). -/
def expScoreOf (st : EngineState) (inp : MatchInput) : ℚ :=
  clamp01 (st.expCurve inp.experience_years inp.job.min_experience_years)

/-- The aggregated overall score (section 4.7): the configured weighted sum
of the three dimension scores. -/
def overallOf (cfg : MatchConfig) (st : EngineState) (inp : MatchInput) : ℚ :=
  cfg.semantic_weight * semanticOf cfg st inp +
    cfg.graph_weight * graphOf cfg st inp +
    cfg.experience_weight * expScoreOf st inp

/-- Whether one required or preferred job skill is covered by the resume: it
normalizes to a canonical id the resume also resolved to. -/
def skillCovered (cfg : MatchConfig) (st : EngineState) (inp : MatchInput)
    (s : String) : Bool :=
  match normalizeMention st.index cfg.sim_threshold st.ontology s with
  | .resolved id _ => (resumeIdsOf cfg st inp).contains id
  | .unresolved _ => false

/-- The distinct required skills of the job. -/
def distinctRequired (inp : MatchInput) : List String :=
  inp.job.required_skills.dedup

/-- The matched required skills with their similarity (section 3,
MatchResult). -/
def matchedOf (cfg : MatchConfig) (st : EngineState) (inp : MatchInput) :
    List SkillMatch :=
  ((distinctRequired inp).filter (skillCovered cfg st inp)).map
    (fun s => { skill := s,
                similarity_score :=
                  clamp01 (bestMatchSim st.sim (resumeNamesOf cfg st inp) s),
                matched := true : SkillMatch })

/-- The missing required skills (section 3, MatchResult). -/
def missingOf (cfg : MatchConfig) (st : EngineState) (inp : MatchInput) : List String :=
  (distinctRequired inp).filter (fun s => ! skillCovered cfg st inp s)

/-- The preferred skills the resume does not cover, for the explanation
(section 4.8). -/
def prefGapsOf (cfg : MatchConfig) (st : EngineState) (inp : MatchInput) : List String :=
  inp.job.preferred_skills.dedup.filter (fun s => ! skillCovered cfg st inp s)

/-- The score breakdown of one request (src/unnamed/part_002 schema). -/
def breakdownOf (cfg : MatchConfig) (st : EngineState) (inp : MatchInput) : ScoreBreakdown :=
  { semantic_score := semanticOf cfg st inp
    graph_score := graphOf cfg st inp
    experience_score := expScoreOf st inp
    semantic_weight := cfg.semantic_weight
    graph_weight := cfg.graph_weight
    experience_weight := cfg.experience_weight }

/-- Modelled from the spec: the end-to-end matching pipeline for one request
(sections 2, 4 and 7).  Every step is total: extraction falls back to the
lexicon, normalization keeps unresolved mentions, the scorers have neutral
branches for empty sets, and every field of the result is filled. -/
def matchPipeline (cfg : MatchConfig) (st : EngineState) (inp : MatchInput) : MatchResult :=
  { resume_id := inp.resume_id
    job_title := inp.job.title
    overall_score := overallOf cfg st inp
    fit_label := fitLabel (overallOf cfg st inp)
    score_breakdown := breakdownOf cfg st inp
    matched_skills := matchedOf cfg st inp
    missing_skills := missingOf cfg st inp
    explanation := explainText (breakdownOf cfg st inp) (overallOf cfg st inp)
      (fitLabel (overallOf cfg st inp)) (matchedOf cfg st inp)
      (missingOf cfg st inp) (prefGapsOf cfg st inp) }

/-- Modelled from the spec: the request boundary (section 7): scoring is
reachable only through a validated configuration; an invalid configuration
is fatal before any request is served. -/
def runMatch (raw : MatchConfig) (st : EngineState) (inp : MatchInput) :
    Except String MatchResult :=
  match loadConfig raw with
  | none => Except.error "configuration rejected: weights must sum to 1"
  | some cfg => Except.ok (matchPipeline cfg st inp)

/-! ## Concrete fixtures

Small concrete ontology, engine state, configuration and inputs used by the
witness theorems. -/

/-- A two-skill ontology fixture. -/
def ont0 : List Skill :=
  [{ id := "kubernetes", name := "Kubernetes", category := "devops", aliases := ["k8s"] },
   { id := "python", name := "Python", category := "language", aliases := ["py"] }]

/-- The second skill of the fixture ontology. -/
def sk0 : Skill :=
  { id := "python", name := "Python", category := "language", aliases := ["py"] }

/-- A trivial index fixture: no embedding hit. -/
def idx0 : String → Option (String × ℚ) := fun _ => none

/-- A trivial similarity oracle fixture: 1 on equal names, 0 otherwise. -/
def sim0 : String → String → ℚ := fun a b => if a = b then 1 else 0

/-- A constant experience-curve fixture. -/
def expCurve0 : Option ℚ → Option ℚ → ℚ := fun _ _ => 1

/-- An engine state fixture with no NER model. -/
def st0 : EngineState :=
  { ontology := ont0, sim := sim0, index := idx0, nerModel := none,
    expCurve := expCurve0 }

/-- A valid configuration fixture: weights one half, three tenths, one
fifth. -/
def cfg0 : MatchConfig :=
  { semantic_weight := 1/2, graph_weight := 3/10, experience_weight := 1/5,
    jaccard_weight := 3/5, category_weight := 2/5, sim_threshold := 3/4 }

/-- An invalid configuration fixture: the aggregation weights sum to three
halves. -/
def badCfg0 : MatchConfig :=
  { semantic_weight := 1/2, graph_weight := 1/2, experience_weight := 1/2,
    jaccard_weight := 3/5, category_weight := 2/5, sim_threshold := 3/4 }

/-- A job fixture with two required and one preferred skill. -/
def job0 : JobDescription :=
  { title := "Senior ML Engineer", description := "builds models",
    required_skills := ["Python", "NLP"], preferred_skills := ["Docker"],
    min_experience_years := some 3 }

/-- A job fixture with no skills at all. -/
def emptyJob0 : JobDescription :=
  { title := "Anything", description := "open role",
    required_skills := [], preferred_skills := [],
    min_experience_years := none }

/-- A request fixture against the two-skill job. -/
def inp0 : MatchInput :=
  { resume_id := "res_1", resumeText := "Knows Python and k8s well",
    experience_years := some 5, job := job0 }

/-- A request fixture against the empty job. -/
def inpEmpty0 : MatchInput :=
  { resume_id := "res_2", resumeText := "Knows Python",
    experience_years := none, job := emptyJob0 }

/-! ## Helper lemmas -/

/-- Clamped values are non-negative. -/
theorem clamp01_nonneg (x : ℚ) : 0 ≤ clamp01 x := le_max_left 0 _

/-- Clamped values are at most one. -/
theorem clamp01_le_one (x : ℚ) : clamp01 x ≤ 1 :=
  max_le (by norm_num) (min_le_left 1 x)

/-- The semantic score always lies in the unit interval: the empty-job branch
is the neutral constant and the other branch is clamped. -/
theorem semanticScore_bounds (sim : String → String → ℚ)
    (rn req pref : List String) :
    0 ≤ semanticScore sim rn req pref ∧ semanticScore sim rn req pref ≤ 1 := by
  unfold semanticScore
  split
  · norm_num [neutralScore]
  · exact ⟨clamp01_nonneg _, clamp01_le_one _⟩

/-- The graph score always lies in the unit interval: the empty-job branch is
the neutral constant and the other branch is clamped. -/
theorem graphScore_bounds (cfg : MatchConfig) (a b c d : List String) :
    0 ≤ graphScore cfg a b c d ∧ graphScore cfg a b c d ≤ 1 := by
  unfold graphScore
  split
  · norm_num [neutralScore]
  · exact ⟨clamp01_nonneg _, clamp01_le_one _⟩

/-- A Boolean predicate partitions a list: the lengths of the two filtered
halves add to the length of the list. -/
theorem length_filter_partition {α : Type} (p : α → Bool) (l : List α) :
    (l.filter p).length + (l.filter (fun a => ! p a)).length = l.length := by
  induction l with
  | nil => rfl
  | cons a t ih =>
    by_cases h : p a <;> simp [List.filter_cons, h] <;> omega

/-- The valid fixture configuration passes validation unchanged. -/
theorem loadConfig_cfg0 : loadConfig cfg0 = some cfg0 := by
  unfold loadConfig
  split_ifs with h
  · rfl
  · exact absurd (by norm_num [cfg0]) h

/-! ## C1: fit-label bands -/

/-- C1: for every overall score in the unit interval the fit label is given
by four non-overlapping bands checked high to low and inclusive at each
lower bound: at least 0.75 is Strong Fit, at least 0.50 and below 0.75 is
Moderate Fit, at least 0.25 and below 0.50 is Potential Fit, below 0.25 is
Weak Fit; the frontend stroke and bar colours band identically. -/
theorem fitLabel_bands (s : ℚ) (h0 : 0 ≤ s) (h1 : s ≤ 1) :
    (fitLabel s = "Strong Fit" ↔ 3/4 ≤ s) ∧
    (fitLabel s = "Moderate Fit" ↔ 1/2 ≤ s ∧ s < 3/4) ∧
    (fitLabel s = "Potential Fit" ↔ 1/4 ≤ s ∧ s < 1/2) ∧
    (fitLabel s = "Weak Fit" ↔ s < 1/4) ∧
    (getStrokeColor s = "#10b981" ↔ fitLabel s = "Strong Fit") ∧
    (getStrokeColor s = "#f59e0b" ↔ fitLabel s = "Moderate Fit") ∧
    (getStrokeColor s = "#f97316" ↔ fitLabel s = "Potential Fit") ∧
    (getStrokeColor s = "#ef4444" ↔ fitLabel s = "Weak Fit") ∧
    (getBarColor s = "bg-emerald-500" ↔ fitLabel s = "Strong Fit") := by
  unfold fitLabel getStrokeColor getBarColor
  split_ifs with ha hb hc
  · exact ⟨iff_of_true rfl ha,
      iff_of_false (by decide) (fun h => absurd ha (not_le.mpr h.2)),
      iff_of_false (by decide) (fun h => absurd h.2 (by intro hlt; linarith)),
      iff_of_false (by decide) (by intro hlt; linarith),
      iff_of_true rfl rfl, iff_of_false (by decide) (by decide),
      iff_of_false (by decide) (by decide), iff_of_false (by decide) (by decide),
      iff_of_true rfl rfl⟩
  · exact ⟨iff_of_false (by decide) ha,
      iff_of_true rfl ⟨hb, not_le.mp ha⟩,
      iff_of_false (by decide) (fun h => absurd h.2 (by intro hlt; linarith)),
      iff_of_false (by decide) (by intro hlt; linarith),
      iff_of_false (by decide) (by decide), iff_of_true rfl rfl,
      iff_of_false (by decide) (by decide), iff_of_false (by decide) (by decide),
      iff_of_false (by decide) (by decide)⟩
  · exact ⟨iff_of_false (by decide) ha,
      iff_of_false (by decide) (fun h => absurd h.1 hb),
      iff_of_true rfl ⟨hc, not_le.mp hb⟩,
      iff_of_false (by decide) (by intro hlt; linarith),
      iff_of_false (by decide) (by decide), iff_of_false (by decide) (by decide),
      iff_of_true rfl rfl, iff_of_false (by decide) (by decide),
      iff_of_false (by decide) (by decide)⟩
  · exact ⟨iff_of_false (by decide) ha,
      iff_of_false (by decide) (fun h => absurd h.1 hb),
      iff_of_false (by decide) (fun h => absurd h.1 hc),
      iff_of_true rfl (not_le.mp hc),
      iff_of_false (by decide) (by decide), iff_of_false (by decide) (by decide),
      iff_of_false (by decide) (by decide), iff_of_true rfl rfl,
      iff_of_false (by decide) (by decide)⟩

/-- C1 witness: the bands evaluated at the concrete score one half. -/
theorem fitLabel_bands_witness :
    (fitLabel (1/2) = "Strong Fit" ↔ 3/4 ≤ (1/2 : ℚ)) ∧
    (fitLabel (1/2) = "Moderate Fit" ↔ 1/2 ≤ (1/2 : ℚ) ∧ (1/2 : ℚ) < 3/4) ∧
    (fitLabel (1/2) = "Potential Fit" ↔ 1/4 ≤ (1/2 : ℚ) ∧ (1/2 : ℚ) < 1/2) ∧
    (fitLabel (1/2) = "Weak Fit" ↔ (1/2 : ℚ) < 1/4) ∧
    (getStrokeColor (1/2) = "#10b981" ↔ fitLabel (1/2) = "Strong Fit") ∧
    (getStrokeColor (1/2) = "#f59e0b" ↔ fitLabel (1/2) = "Moderate Fit") ∧
    (getStrokeColor (1/2) = "#f97316" ↔ fitLabel (1/2) = "Potential Fit") ∧
    (getStrokeColor (1/2) = "#ef4444" ↔ fitLabel (1/2) = "Weak Fit") ∧
    (getBarColor (1/2) = "bg-emerald-500" ↔ fitLabel (1/2) = "Strong Fit") :=
  fitLabel_bands (1/2) (by norm_num) (by norm_num)

/-! ## C2: weight validation and aggregation formula -/

/-- C2: a configuration whose three aggregation weights do not sum to exactly
one is rejected at load, before any request is scored; under an accepted
configuration the weights sum to one and the overall score is exactly the
configured weighted sum of the three dimension scores. -/
theorem aggregator_weight_contract (raw : MatchConfig) (st : EngineState)
    (inp : MatchInput) :
    (raw.semantic_weight + raw.graph_weight + raw.experience_weight ≠ 1 →
      loadConfig raw = none) ∧
    (∀ cfg, loadConfig raw = some cfg →
      cfg.semantic_weight + cfg.graph_weight + cfg.experience_weight = 1 ∧
      (matchPipeline cfg st inp).overall_score =
        cfg.semantic_weight * (matchPipeline cfg st inp).score_breakdown.semantic_score +
          cfg.graph_weight * (matchPipeline cfg st inp).score_breakdown.graph_score +
          cfg.experience_weight * (matchPipeline cfg st inp).score_breakdown.experience_score) := by
  constructor
  · intro hne
    unfold loadConfig
    exact if_neg (fun hp => hne hp.1)
  · intro cfg h
    unfold loadConfig at h
    split_ifs at h with hp
    injection h with h2
    subst h2
    exact ⟨hp.1, rfl⟩

/-- C2 witness: the fixture configuration with weights summing to three
halves is rejected; the valid fixture configuration is accepted, sums to
one, and yields the weighted-sum overall score on the fixture request. -/
theorem aggregator_weight_contract_witness :
    loadConfig badCfg0 = none ∧
    (cfg0.semantic_weight + cfg0.graph_weight + cfg0.experience_weight = 1 ∧
      (matchPipeline cfg0 st0 inp0).overall_score =
        cfg0.semantic_weight * (matchPipeline cfg0 st0 inp0).score_breakdown.semantic_score +
          cfg0.graph_weight * (matchPipeline cfg0 st0 inp0).score_breakdown.graph_score +
          cfg0.experience_weight * (matchPipeline cfg0 st0 inp0).score_breakdown.experience_score) :=
  ⟨(aggregator_weight_contract badCfg0 st0 inp0).1 (by norm_num [badCfg0]),
   (aggregator_weight_contract cfg0 st0 inp0).2 cfg0 loadConfig_cfg0⟩

/-! ## C3: score bounds -/

/-- C3: under any configuration accepted at load, every score of the
produced result, the three dimension scores and the aggregated overall
score, lies in the closed unit interval. -/
theorem scores_in_unit_interval (raw cfg : MatchConfig) (st : EngineState)
    (inp : MatchInput) (h : loadConfig raw = some cfg) :
    0 ≤ (matchPipeline cfg st inp).score_breakdown.semantic_score ∧
      (matchPipeline cfg st inp).score_breakdown.semantic_score ≤ 1 ∧
      0 ≤ (matchPipeline cfg st inp).score_breakdown.graph_score ∧
      (matchPipeline cfg st inp).score_breakdown.graph_score ≤ 1 ∧
      0 ≤ (matchPipeline cfg st inp).score_breakdown.experience_score ∧
      (matchPipeline cfg st inp).score_breakdown.experience_score ≤ 1 ∧
      0 ≤ (matchPipeline cfg st inp).overall_score ∧
      (matchPipeline cfg st inp).overall_score ≤ 1 := by
  unfold loadConfig at h
  split_ifs at h with hp
  injection h with h2
  subst h2
  obtain ⟨hsum, hsw, hgw, hew, -, -, -⟩ := hp
  have hs0 : 0 ≤ semanticOf raw st inp :=
    (semanticScore_bounds st.sim (resumeNamesOf raw st inp)
      inp.job.required_skills inp.job.preferred_skills).1
  have hs1 : semanticOf raw st inp ≤ 1 :=
    (semanticScore_bounds st.sim (resumeNamesOf raw st inp)
      inp.job.required_skills inp.job.preferred_skills).2
  have hg0 : 0 ≤ graphOf raw st inp :=
    (graphScore_bounds raw (resumeIdsOf raw st inp) (jobIdsOf raw st inp)
      (resumeCatsOf raw st inp) (jobCatsOf raw st inp)).1
  have hg1 : graphOf raw st inp ≤ 1 :=
    (graphScore_bounds raw (resumeIdsOf raw st inp) (jobIdsOf raw st inp)
      (resumeCatsOf raw st inp) (jobCatsOf raw st inp)).2
  have he0 : 0 ≤ expScoreOf st inp :=
    clamp01_nonneg (st.expCurve inp.experience_years inp.job.min_experience_years)
  have he1 : expScoreOf st inp ≤ 1 :=
    clamp01_le_one (st.expCurve inp.experience_years inp.job.min_experience_years)
  refine ⟨hs0, hs1, hg0, hg1, he0, he1, ?_, ?_⟩
  · show 0 ≤ overallOf raw st inp
    unfold overallOf
    exact add_nonneg (add_nonneg (mul_nonneg hsw hs0) (mul_nonneg hgw hg0))
      (mul_nonneg hew he0)
  · show overallOf raw st inp ≤ 1
    unfold overallOf
    have u1 : raw.semantic_weight * semanticOf raw st inp ≤ raw.semantic_weight :=
      mul_le_of_le_one_right hsw hs1
    have u2 : raw.graph_weight * graphOf raw st inp ≤ raw.graph_weight :=
      mul_le_of_le_one_right hgw hg1
    have u3 : raw.experience_weight * expScoreOf st inp ≤ raw.experience_weight :=
      mul_le_of_le_one_right hew he1
    linarith

/-- C3 witness: the bounds evaluated on the fixture request under the
accepted fixture configuration. -/
theorem scores_in_unit_interval_witness :
    0 ≤ (matchPipeline cfg0 st0 inp0).score_breakdown.semantic_score ∧
      (matchPipeline cfg0 st0 inp0).score_breakdown.semantic_score ≤ 1 ∧
      0 ≤ (matchPipeline cfg0 st0 inp0).score_breakdown.graph_score ∧
      (matchPipeline cfg0 st0 inp0).score_breakdown.graph_score ≤ 1 ∧
      0 ≤ (matchPipeline cfg0 st0 inp0).score_breakdown.experience_score ∧
      (matchPipeline cfg0 st0 inp0).score_breakdown.experience_score ≤ 1 ∧
      0 ≤ (matchPipeline cfg0 st0 inp0).overall_score ∧
      (matchPipeline cfg0 st0 inp0).overall_score ≤ 1 :=
  scores_in_unit_interval cfg0 cfg0 st0 inp0 loadConfig_cfg0

/-! ## C4: experience monotonicity and the logistic curve -/

/-- C4: with the minimum years fixed and a positive steepness, the experience
score never decreases as the candidate years grow; when both values are
present the score is exactly the logistic curve, so a candidate exactly at
the minimum scores one half. -/
theorem experience_monotone_logistic (k m y1 y2 y fb : ℝ)
    (hk : 0 < k) (h12 : y1 ≤ y2) :
    experienceScore k fb (some y1) (some m) ≤ experienceScore k fb (some y2) (some m) ∧
    experienceScore k fb (some y) (some m) = 1 / (1 + Real.exp (-(k * (y - m)))) ∧
    experienceScore k fb (some m) (some m) = 1/2 := by
  refine ⟨?_, rfl, ?_⟩
  · show logisticFit k y1 m ≤ logisticFit k y2 m
    unfold logisticFit
    have e1 : (0:ℝ) < 1 + Real.exp (-(k * (y2 - m))) := by positivity
    have hexp : Real.exp (-(k * (y2 - m))) ≤ Real.exp (-(k * (y1 - m))) := by
      apply Real.exp_le_exp.mpr
      nlinarith
    exact one_div_le_one_div_of_le e1 (by linarith)
  · show logisticFit k m m = 1/2
    unfold logisticFit
    rw [sub_self, mul_zero, neg_zero, Real.exp_zero]
    norm_num

/-- C4 witness: steepness 1, minimum 1 year, candidate years 1 and 2. -/
theorem experience_monotone_logistic_witness :
    experienceScore 1 0 (some 1) (some 1) ≤ experienceScore 1 0 (some 2) (some 1) ∧
    experienceScore 1 0 (some 1) (some 1) = 1 / (1 + Real.exp (-(1 * ((1:ℝ) - 1)))) ∧
    experienceScore 1 0 (some (1:ℝ)) (some 1) = 1/2 :=
  experience_monotone_logistic 1 1 1 2 1 0 one_pos one_le_two

/-! ## C5: normalization idempotence on canonical names -/

/-- C5: in an ontology whose canonical names resolve uniquely, normalizing
the literal canonical name of any skill of the ontology resolves to that
same skill id with similarity exactly 1, through the alias short-circuit
and without consulting the index. -/
theorem normalizer_idempotent (index : String → Option (String × ℚ))
    (threshold : ℚ) (ontology : List Skill) (sk : Skill)
    (hmem : sk ∈ ontology) (hwf : NamesResolveUniquely ontology) :
    normalizeMention index threshold ontology sk.name =
      Normalized.resolved sk.id 1 := by
  unfold normalizeMention
  have hself : aliasMatches sk.name sk = true := by simp [aliasMatches]
  cases hfind : ontology.find? (fun s => aliasMatches sk.name s) with
  | none =>
    exact absurd hself (List.find?_eq_none.mp hfind sk hmem)
  | some b =>
    have hb : aliasMatches sk.name b = true := List.find?_some hfind
    have hbmem : b ∈ ontology := List.mem_of_find?_eq_some hfind
    show Normalized.resolved b.id 1 = Normalized.resolved sk.id 1
    rw [hwf sk hmem b hbmem hb]

/-- C5 witness: the canonical name Python of the fixture ontology resolves
to the id python with similarity 1. -/
theorem normalizer_idempotent_witness :
    normalizeMention idx0 (3/4) ont0 sk0.name = Normalized.resolved sk0.id 1 :=
  normalizer_idempotent idx0 (3/4) ont0 sk0 (by decide)
    (by unfold NamesResolveUniquely; decide)

/-! ## C6: empty job skill set scores neutrally -/

/-- C6: when the job has no required and no preferred skills, the graph and
semantic scores of the result both equal the documented neutral constant;
both scorers take their neutral branch, so no division is reached and a
result is always produced. -/
theorem empty_job_neutral (cfg : MatchConfig) (st : EngineState)
    (inp : MatchInput) (hreq : inp.job.required_skills = [])
    (hpref : inp.job.preferred_skills = []) :
    (matchPipeline cfg st inp).score_breakdown.graph_score = neutralScore ∧
    (matchPipeline cfg st inp).score_breakdown.semantic_score = neutralScore := by
  constructor
  · show graphOf cfg st inp = neutralScore
    have hj : jobIdsOf cfg st inp = [] := by
      unfold jobIdsOf
      rw [hreq, hpref]
      rfl
    unfold graphOf graphScore
    rw [hj]
    rfl
  · show semanticOf cfg st inp = neutralScore
    unfold semanticOf semanticScore
    rw [hreq, hpref]
    rfl

/-- C6 witness: the empty-job fixture scores neutrally on both dimensions. -/
theorem empty_job_neutral_witness :
    (matchPipeline cfg0 st0 inpEmpty0).score_breakdown.graph_score = neutralScore ∧
    (matchPipeline cfg0 st0 inpEmpty0).score_breakdown.semantic_score = neutralScore :=
  empty_job_neutral cfg0 st0 inpEmpty0 rfl rfl

/-! ## C7: coverage partition of the required skills -/

/-- C7: in every produced result the number of matched skills plus the
number of missing skills equals the number of distinct required skills of
the job. -/
theorem coverage_partition (cfg : MatchConfig) (st : EngineState)
    (inp : MatchInput) :
    (matchPipeline cfg st inp).matched_skills.length +
      (matchPipeline cfg st inp).missing_skills.length =
      inp.job.required_skills.dedup.length := by
  show (matchedOf cfg st inp).length + (missingOf cfg st inp).length = _
  unfold matchedOf missingOf distinctRequired
  rw [List.length_map]
  exact length_filter_partition (skillCovered cfg st inp)
    inp.job.required_skills.dedup

/-! ## C8: totality of the pipeline and lexicon-only degradation -/

/-- C8: once a configuration has been accepted, the pipeline returns a
complete result (every field of the record is filled) and never an error;
and extraction with no model available still returns a result, the lexicon
scan alone, with the degraded flag set. -/
theorem pipeline_total_and_degraded (raw cfg : MatchConfig) (st : EngineState)
    (inp : MatchInput) (lexicon : List String) (text : String)
    (h : loadConfig raw = some cfg) :
    runMatch raw st inp = Except.ok (matchPipeline cfg st inp) ∧
    extractSkills none lexicon text = (lexiconScan lexicon text, true) := by
  constructor
  · unfold runMatch
    rw [h]
  · rfl

/-- C8 witness: the accepted fixture configuration always yields an ok
result, and model-less extraction on concrete text degrades to the lexicon
scan. -/
theorem pipeline_total_and_degraded_witness :
    runMatch cfg0 st0 inp0 = Except.ok (matchPipeline cfg0 st0 inp0) ∧
    extractSkills none (pipelineLexicon st0) "Knows Python" =
      (lexiconScan (pipelineLexicon st0) "Knows Python", true) :=
  pipeline_total_and_degraded cfg0 cfg0 st0 inp0 (pipelineLexicon st0)
    "Knows Python" loadConfig_cfg0

/-! ## C9: two-run determinism -/

/-- C9: on identical inputs and identical engine state two runs agree:
normalization returns the same canonical answer, the explainer renders
identical text, and the whole pipeline result coincides.  Every modelled
component is a pure function of its inputs, so equality of inputs forces
equality of outputs. -/
theorem deterministic_two_runs
    (index1 index2 : String → Option (String × ℚ)) (th1 th2 : ℚ)
    (ont1 ont2 : List Skill) (m1 m2 : String)
    (cfg1 cfg2 : MatchConfig) (st1 st2 : EngineState) (inp1 inp2 : MatchInput)
    (bd1 bd2 : ScoreBreakdown) (o1 o2 : ℚ) (l1 l2 : String)
    (ms1 ms2 : List SkillMatch) (mi1 mi2 : List String) (pg1 pg2 : List String)
    (hidx : index1 = index2) (hth : th1 = th2) (hont : ont1 = ont2)
    (hm : m1 = m2) (hcfg : cfg1 = cfg2) (hst : st1 = st2) (hinp : inp1 = inp2)
    (hbd : bd1 = bd2) (ho : o1 = o2) (hl : l1 = l2) (hms : ms1 = ms2)
    (hmi : mi1 = mi2) (hpg : pg1 = pg2) :
    normalizeMention index1 th1 ont1 m1 = normalizeMention index2 th2 ont2 m2 ∧
    explainText bd1 o1 l1 ms1 mi1 pg1 = explainText bd2 o2 l2 ms2 mi2 pg2 ∧
    matchPipeline cfg1 st1 inp1 = matchPipeline cfg2 st2 inp2 := by
  subst hidx hth hont hm hcfg hst hinp hbd ho hl hms hmi hpg
  exact ⟨rfl, rfl, rfl⟩

/-- C9 witness: two runs on the concrete fixture inputs coincide. -/
theorem deterministic_two_runs_witness :
    normalizeMention idx0 (3/4) ont0 "Python" =
      normalizeMention idx0 (3/4) ont0 "Python" ∧
    explainText (breakdownOf cfg0 st0 inp0) 1 "Strong Fit" [] [] [] =
      explainText (breakdownOf cfg0 st0 inp0) 1 "Strong Fit" [] [] [] ∧
    matchPipeline cfg0 st0 inp0 = matchPipeline cfg0 st0 inp0 :=
  deterministic_two_runs idx0 idx0 (3/4) (3/4) ont0 ont0 "Python" "Python"
    cfg0 cfg0 st0 st0 inp0 inp0 (breakdownOf cfg0 st0 inp0)
    (breakdownOf cfg0 st0 inp0) 1 1 "Strong Fit" "Strong Fit" [] [] [] [] [] []
    rfl rfl rfl rfl rfl rfl rfl rfl rfl rfl rfl rfl rfl

/-! ## C10: upload validation -/

/-- A string has no last-dot suffix exactly when it has no dot. -/
theorem lastDotSuffix_eq_none (cs : List ℕ) :
    lastDotSuffix cs = none ↔ 46 ∉ cs := by
  induction cs with
  | nil => simp [lastDotSuffix]
  | cons c rest ih =>
    simp only [lastDotSuffix]
    cases hr : lastDotSuffix rest with
    | some s =>
      have hmem : 46 ∈ rest := by
        by_contra hn
        rw [ih.mpr hn] at hr
        cases hr
      simp [List.mem_cons, hmem]
    | none =>
      have hres : 46 ∉ rest := ih.mp hr
      by_cases hc : c = 46
      · subst hc
        simp
      · rw [if_neg hc]
        simp only [List.mem_cons]
        constructor
        · intro _ hor
          rcases hor with h46 | hmem
          · exact hc h46.symm
          · exact hres hmem
        · intro _
          trivial

/-- The last-dot suffix is a final extension in the sense of the claim. -/
theorem lastDotSuffix_isFinalExt {cs s : List ℕ}
    (h : lastDotSuffix cs = some s) : IsFinalExtension cs s := by
  induction cs with
  | nil => cases h
  | cons c rest ih =>
    simp only [lastDotSuffix] at h
    cases hr : lastDotSuffix rest with
    | some t =>
      rw [hr] at h
      injection h with h2
      subst h2
      obtain ⟨⟨pre, hpre⟩, hh, ht⟩ := ih hr
      exact ⟨⟨c :: pre, by rw [hpre]; rfl⟩, hh, ht⟩
    | none =>
      rw [hr] at h
      split_ifs at h with hc
      · injection h with h2
        subst hc
        rw [← h2]
        exact ⟨⟨[], rfl⟩, rfl, (lastDotSuffix_eq_none rest).mp hr⟩

/-- The last-dot suffix of a name ending in a dot followed by a dotless
tail. -/
theorem lastDotSuffix_append (pre t : List ℕ) (ht : 46 ∉ t) :
    lastDotSuffix (pre ++ 46 :: t) = some (46 :: t) := by
  induction pre with
  | nil =>
    simp [lastDotSuffix, (lastDotSuffix_eq_none t).mpr ht]
  | cons p ps ih =>
    simp [lastDotSuffix, ih]

/-- The accepted lowercased extension seen by validateFile is exactly a
final extension of the name that lowercases to pdf or docx. -/
theorem jsExtension_accept_iff (name : List ℕ) :
    (lowerCodes (jsExtension name) = pdfExtension ∨
      lowerCodes (jsExtension name) = docxExtension) ↔
    ∃ e, IsFinalExtension name e ∧
      (lowerCodes e = pdfExtension ∨ lowerCodes e = docxExtension) := by
  unfold jsExtension
  cases h : lastDotSuffix name with
  | some s =>
    simp only [Option.getD_some]
    constructor
    · intro hacc
      exact ⟨s, lastDotSuffix_isFinalExt h, hacc⟩
    · rintro ⟨e, he, hacc⟩
      obtain ⟨⟨pre, hpre⟩, hh, ht⟩ := he
      cases e with
      | nil => cases hh
      | cons a t =>
        have ha : a = 46 := by
          simp only [List.head?] at hh
          injection hh
        subst ha
        subst hpre
        rw [lastDotSuffix_append pre t ht] at h
        injection h with h2
        rw [← h2]
        exact hacc
  | none =>
    simp only [Option.getD_none]
    have hdot : 46 ∉ name := (lastDotSuffix_eq_none name).mp h
    constructor
    · intro hacc
      exfalso
      cases name with
      | nil =>
        rcases hacc with h1 | h1 <;> cases h1
      | cons c rest =>
        have hc : lowerCode c = 46 := by
          rcases hacc with h1 | h1 <;>
            · have h2 := congrArg List.head? h1
              simp only [lowerCodes, List.map_cons, List.head?,
                pdfExtension, docxExtension] at h2
              exact Option.some.inj h2
        have hc46 : c = 46 := by
          unfold lowerCode at hc
          split_ifs at hc <;> omega
        exact hdot (by simp [hc46])
    · rintro ⟨e, he, hacc⟩
      exfalso
      obtain ⟨⟨pre, hpre⟩, hh, ht⟩ := he
      cases e with
      | nil => cases hh
      | cons a t =>
        have ha : a = 46 := by
          simp only [List.head?] at hh
          injection hh
        apply hdot
        rw [hpre, ha]
        simp

/-- C10: the upload component accepts a file exactly when the lowercased
final extension of its name is pdf or docx and its size is at most ten
megabytes; on every rejection an error message is set and the file is
never handed to onFileSelect. -/
theorem validateFile_spec (name : List ℕ) (size : ℕ) :
    ((validateFile name size).1 = true ↔
      ((∃ e, IsFinalExtension name e ∧
          (lowerCodes e = pdfExtension ∨ lowerCodes e = docxExtension)) ∧
        size ≤ maxUploadBytes)) ∧
    ((validateFile name size).1 = false →
      (validateFile name size).2.isSome = true ∧ handleFile name size = none) := by
  constructor
  · unfold validateFile
    split_ifs with hext hsize
    · constructor
      · intro h
        cases h
      · rintro ⟨-, hle⟩
        exact absurd hle (by omega)
    · constructor
      · intro _
        exact ⟨(jsExtension_accept_iff name).mp hext, by omega⟩
      · intro _
        rfl
    · constructor
      · intro h
        cases h
      · rintro ⟨hex, -⟩
        exact absurd ((jsExtension_accept_iff name).mpr hex) hext
  · intro hfalse
    constructor
    · unfold validateFile at hfalse ⊢
      split_ifs at hfalse ⊢ <;> rfl
    · unfold handleFile
      rw [hfalse]
      rfl
